import Mathlib

/-!
Shallow embedding of the website-builder's core (src/website.rs, src/web/css.rs,
src/web/html.rs): the style registry, link/route resolution, route-table
construction, HTML attribute serialization and plain-text escaping, together
with theorems settling the specification claims about them.

Rust strings are modelled as Lean `String`/`List Char` (UTF-8 byte order and
code-point order agree, so byte-wise `str` comparison is char-wise comparison);
`HashMap`/`IndexSet` are modelled as association lists / order-preserving
dedup lists; panics (`expect`, `panic!`, `debug_assert!`) are modelled as
`Except` errors carrying the panic's data.
-/

/-- Apostrophe character (U+0027), named to keep source text plain. -/
def apos : Char := Char.ofNat 39

/-! ## Style registry (src/web/css.rs, `CSSBuilder`) -/

/-- Model of `indexmap::IndexSet::insert`: an order-preserving set insert that
keeps the first-registration position and ignores re-insertions. -/
def indexSetInsert {α : Type} [DecidableEq α] (s : List α) (a : α) : List α :=
  if a ∈ s then s else s ++ [a]

/-- Model of `CSSBuilder` (css.rs lines 15-18): `imports : IndexSet<String>` and
`rules : IndexSet<CSSCallback>`. Rule generators (`fn() -> CSSRule` pointers)
are modelled by an abstract identity type `G`; registration never evaluates
them, so nothing about their produced content appears here. -/
structure CSSBuilder (G : Type) where
  imports : List String
  rules : List G

/-- Model of `CSSBuilder::new` (css.rs lines 21-26). -/
def CSSBuilder.empty (G : Type) : CSSBuilder G := ⟨[], []⟩

/-- Model of `CSSBuilder::import` (css.rs lines 28-30): insert into the
order-preserving `imports` set. -/
def CSSBuilder.importSource {G : Type} (b : CSSBuilder G) (s : String) : CSSBuilder G :=
  { b with imports := indexSetInsert b.imports s }

/-- Model of `CSSBuilder::register` (css.rs lines 32-34): insert the generator
into the order-preserving `rules` set, keyed by its identity. -/
def CSSBuilder.register {G : Type} [DecidableEq G] (b : CSSBuilder G) (g : G) : CSSBuilder G :=
  { b with rules := indexSetInsert b.rules g }

/-- Fold a whole registration sequence into the rules set, starting from the
empty builder (the `rules` field after the calls `register g` for `g` in
`regs`, in order). -/
def registerFold {G : Type} [DecidableEq G] (regs : List G) : List G :=
  regs.foldl indexSetInsert []

/-- Fold a sequence of `import` calls into a builder, starting empty. -/
def buildImports (regs : List String) : CSSBuilder Unit :=
  regs.foldl CSSBuilder.importSource (CSSBuilder.empty Unit)

/-- One `@import` output line of `CSSBuilder::write` (css.rs line 76):
`writeln!(out, "@import {};", import)` emits the stored text verbatim. -/
def writeImportLine (s : String) : String := "@import " ++ s ++ ";\n"

/-- Import section of `CSSBuilder::write` (css.rs lines 75-81): all import
lines in order, then one blank line if `imports.len() > 0`. -/
def CSSBuilder.writeImports {G : Type} (b : CSSBuilder G) : String :=
  String.join (b.imports.map writeImportLine) ++ (if b.imports.length > 0 then "\n" else "")

/-- ASCII digit test, `('\u{30}'..='\u{39}').contains(&char)` in the source. -/
def isDigitChar (c : Char) : Prop := 0x30 ≤ c.toNat ∧ c.toNat ≤ 0x39

instance (c : Char) : Decidable (isDigitChar c) := by
  unfold isDigitChar; infer_instance

/-- Hex escape `write!(string, "\\{:x} ", char as u32)` (css.rs line 49):
a backslash, the lowercase hex code, and a trailing space. -/
def hexEscape (c : Char) : List Char :=
  '\\' :: (Nat.toDigits 16 c.toNat ++ [' '])

/-- UTF-8 byte length of a list of chars, `str::len()` in the source. -/
def utf8Len (s : List Char) : Nat := (s.map Char.utf8Size).sum

/-- One iteration of the `escape_identifier` loop (css.rs lines 42-67) at
character `c`, position `index`, with the running `first_char_is_hyphen`
flag; returns the emitted characters and the updated flag. `byteLen` is
`identifier.len()`. -/
def escIdentChar (byteLen index : Nat) (flag : Bool) (c : Char) : List Char × Bool :=
  if c.toNat = 0 then ([Char.ofNat 0xFFFD], flag)
  else if (1 ≤ c.toNat ∧ c.toNat ≤ 0x1F) ∨ (index = 0 ∧ isDigitChar c)
      ∨ (index = 1 ∧ isDigitChar c ∧ flag = true) then
    (hexEscape c, flag)
  else if c = '-' ∧ byteLen = 1 then (['\\', '-'], flag)
  else if c = '-' then ([c], true)
  else if 0x80 ≤ c.toNat ∨ c = '-' ∨ c = '_' ∨ isDigitChar c
      ∨ (0x41 ≤ c.toNat ∧ c.toNat ≤ 0x5A) ∨ (0x61 ≤ c.toNat ∧ c.toNat ≤ 0x7A) then
    ([c], flag)
  else (['\\', c], flag)

/-- The `escape_identifier` character loop (css.rs lines 42-67). -/
def escIdentLoop (byteLen : Nat) : Nat → Bool → List Char → List Char
  | _, _, [] => []
  | i, flag, c :: rest =>
    let p := escIdentChar byteLen i flag c
    p.1 ++ escIdentLoop byteLen (i + 1) p.2 rest

/-- Model of `CSSBuilder::escape_identifier` (css.rs lines 36-70). -/
def escapeIdentifier (s : String) : String :=
  ⟨escIdentLoop (utf8Len s.data) 0 false s.data⟩

/-- Modelled from the spec sentence of C9: the per-character classification it
describes, phrased with "the first character was a hyphen" instead of the
source's running flag. -/
def claimEscChar (firstHyphen : Bool) (i : Nat) (c : Char) : List Char :=
  if c.toNat = 0 then [Char.ofNat 0xFFFD]
  else if (1 ≤ c.toNat ∧ c.toNat ≤ 0x1F) ∨ (i = 0 ∧ isDigitChar c)
      ∨ (i = 1 ∧ isDigitChar c ∧ firstHyphen = true) then
    hexEscape c
  else if 0x80 ≤ c.toNat ∨ c = '-' ∨ c = '_' ∨ isDigitChar c
      ∨ (0x41 ≤ c.toNat ∧ c.toNat ≤ 0x5A) ∨ (0x61 ≤ c.toNat ∧ c.toNat ≤ 0x7A) then
    [c]
  else ['\\', c]

/-- Modelled from the spec sentence of C9: escape the lone identifier `-` as
`\-`; otherwise classify each character by position, where the second-position
digit rule applies when the first character was a hyphen. -/
def escapeIdentifierClaim (s : String) : String :=
  if s = "-" then "\\-"
  else ⟨(s.data.enum.map
    (fun p => claimEscChar (s.data.head? = some '-') p.1 p.2)).flatten⟩

/-! ## Links and href resolution (src/web/mod.rs, src/website.rs) -/

/-- Model of `Link` (mod.rs lines 61-68). -/
inductive Link where
  | byId (id : String)
  | custom (linkTitle : String) (destination : String)
deriving DecidableEq

/-- Panics of `WebsiteRenderContext::resolve_href` (website.rs lines 556-563),
modelled as error values. -/
inductive ResolveErr where
  | invalidPageReference (id : String)
  | linkToEmptyRoute
deriving DecidableEq

/-- Length of the matching leading zip, `from.iter().zip(to).take_while(|(a, b)|
a == b).count()` (website.rs line 560). -/
def commonLen (f t : List String) : Nat :=
  ((f.zip t).takeWhile (fun p => p.1 == p.2)).length

/-- Model of `WebsiteRenderContext::resolve_href` (website.rs lines 553-574).
The route table is an association list id ↦ segment list; the `expect` panics
become errors. -/
def resolveHref (routes : List (String × List String)) (link : Link) (fromPage : String) :
    Except ResolveErr String :=
  match link with
  | .byId id =>
    match routes.lookup fromPage with
    | none => .error (.invalidPageReference fromPage)
    | some f =>
      match routes.lookup id with
      | none => .error (.invalidPageReference id)
      | some t =>
        let k := commonLen f t
        if k = t.length then
          match t.getLast? with
          | none => .error .linkToEmptyRoute
          | some last => .ok ("./" ++ last)
        else
          .ok (String.join (List.replicate (f.length - k - 1) "../")
            ++ String.intercalate "/" (t.drop k))
  | .custom _ dest => .ok dest

/-- Modelled from the spec sentence of C1: the length of the common
leading-segment string of two segment lists. -/
def specCommonLen : List String → List String → Nat
  | a :: as, b :: bs => if a = b then specCommonLen as bs + 1 else 0
  | _, _ => 0

/-- Modelled from the spec sentence of C1: with `k` the common leading-segment
length, emit `./` plus the target's last segment when `k` equals the target
length, else `(len(from) - k - 1)` copies of `../` followed by the target
segments from `k` on, joined with `/`. -/
def hrefClaim (f t : List String) (h : t ≠ []) : String :=
  let k := specCommonLen f t
  if k = t.length then "./" ++ t.getLast h
  else String.join (List.replicate (f.length - k - 1) "../")
    ++ String.intercalate "/" (t.drop k)

/-! ## Route-table construction (src/website.rs, `Website::build` lines 449-497) -/

/-- Model of `FileName` (website.rs lines 46-52). -/
inductive FName where
  | byId
  | index
  | resource
  | custom (name : String)
deriving DecidableEq

/-- The data of one document that route construction reads: its id
(`Document::id`), category (`Document::category`), filename policy
(`Document::filename`) and extension (`Document::extension`). -/
structure DocSpec where
  id : String
  category : Option String
  filename : FName
  ext : String
deriving DecidableEq

/-- Strip a leading `resource:` tag, `id.strip_prefix("resource:").unwrap_or(id)`
(website.rs line 480). -/
def dropResourceTag (s : String) : String :=
  if "resource:".isPrefixOf s then s.drop 9 else s

/-- Segments the filename policy pushes onto the route (website.rs lines
474-483): `Resource` pushes the two segments `rsc` and the stripped id. -/
def filenameSegments (d : DocSpec) : List String :=
  match d.filename with
  | .byId => [d.id ++ d.ext]
  | .index => ["index" ++ d.ext]
  | .resource => ["rsc", dropResourceTag d.id ++ d.ext]
  | .custom name => [name ++ d.ext]

/-- Errors of the route-construction loop, carrying the data interpolated into
the `format!` messages of website.rs lines 466, 471, 489 and 495. -/
inductive BuildErr where
  | duplicateId (id : String)
  | invalidCategory (id cat : String)
  | duplicateDocument (id : String)
  | duplicateRoute (route : String) (ids : List String)
deriving DecidableEq

/-- Category path of a document (website.rs lines 469-472): empty when it has
no category, the category map entry otherwise, a fatal error when the category
is unknown. -/
def catPath (catmap : List (String × List String)) (d : DocSpec) :
    Except BuildErr (List String) :=
  match d.category with
  | none => .ok []
  | some c =>
    match catmap.lookup c with
    | none => .error (.invalidCategory d.id c)
    | some p => .ok p

/-- Full route of a document when its category resolves: category path plus
filename segments. -/
def docRoute (catmap : List (String × List String)) (d : DocSpec) :
    Option (List String) :=
  (catPath catmap d).toOption.map (· ++ filenameSegments d)

/-- Model of the route-construction loop of `Website::build` (website.rs lines
460-497): per document, reject a duplicate id, resolve the category path,
append the filename segments, record the route, and reject a route collision
with the message listing every id mapped to that route so far (the `routes`
map is read after the current document was inserted, line 485). -/
def buildLoop (catmap : List (String × List String)) :
    List DocSpec → List String → List (String × List String) → List (List String) →
    Except BuildErr (List (String × List String))
  | [], _, routes, _ => .ok routes
  | d :: rest, idSet, routes, routeSet =>
    if d.id ∈ idSet then .error (.duplicateId d.id)
    else
      match catPath catmap d with
      | .error e => .error e
      | .ok p =>
        if (routes.lookup d.id).isSome then .error (.duplicateDocument d.id)
        else if (p ++ filenameSegments d) ∈ routeSet then
          .error (.duplicateRoute (String.intercalate "/" (p ++ filenameSegments d))
            (((routes ++ [(d.id, p ++ filenameSegments d)]).filter
              (fun q => q.2 = p ++ filenameSegments d)).map Prod.fst))
        else
          buildLoop catmap rest (idSet ++ [d.id])
            (routes ++ [(d.id, p ++ filenameSegments d)])
            (routeSet ++ [p ++ filenameSegments d])

/-- Route construction over the whole document list, from empty state. -/
def websiteBuildRoutes (catmap : List (String × List String)) (docs : List DocSpec) :
    Except BuildErr (List (String × List String)) :=
  buildLoop catmap docs [] [] []

/-! ## HTML element attributes (src/web/html.rs, `HtmlElement`) -/

/-- The `ATTRIBUTE_ORDER` constant (html.rs line 540). -/
def attributeOrder : List String :=
  ["id", "name", "class", "src", "for", "type", "href", "value", "title", "alt", "role"]

/-- The sort comparator of `HtmlElement::build` (html.rs lines 542-552), with
its first argument bound to `r_key` and its second to `l_key` exactly as in the
source; `Ordering::reverse` is `Ordering.swap`. -/
def attrCompare (a b : String) : Ordering :=
  match attributeOrder.findIdx? (· = a), attributeOrder.findIdx? (· = b) with
  | some ra, some la => (compare ra la).swap
  | some _, none => .gt
  | none, some _ => .lt
  | none, none => compare a b

/-- Insert one attribute into a list sorted by `attrCompare`. -/
def insertSorted (x : String × Option String) :
    List (String × Option String) → List (String × Option String)
  | [] => [x]
  | y :: ys =>
    if attrCompare x.1 y.1 ≠ Ordering.gt then x :: y :: ys else y :: insertSorted x ys

/-- The attribute order produced by `attributes.sort_unstable_by(...)` (html.rs
lines 541-552): the comparator is a strict total order on the distinct
attribute names of the map, so the sorted result is the unique ordering of the
pairs that `attrCompare` accepts, here computed by insertion sort. -/
def sortAttributes (l : List (String × Option String)) : List (String × Option String) :=
  l.foldr insertSorted []

/-- Escape of an attribute value, `value.replace('\"', "&quot;")` (html.rs
line 559). -/
def quotEscape (v : String) : String :=
  ⟨v.data.flatMap (fun c => if c = '"' then "&quot;".data else [c])⟩

/-- One attribute's output text (html.rs lines 557-563): ` name="value"` with
quotes escaped when the value is present and non-empty, the bare ` name`
otherwise. -/
def attributeText (p : String × Option String) : String :=
  match p.2 with
  | some v => if v ≠ "" then " " ++ p.1 ++ "=\"" ++ quotEscape v ++ "\"" else " " ++ p.1
  | none => " " ++ p.1

/-- The full attribute section an element emits: each sorted attribute's text,
concatenated. -/
def attributesText (l : List (String × Option String)) : String :=
  String.join ((sortAttributes l).map attributeText)

/-- Model of `HashMap::insert` on the attribute map (html.rs line 493): replace
the value under an existing key or append a new binding, returning the old
value. -/
def attributeInsert (attrs : List (String × Option String)) (name : String)
    (v : Option String) : List (String × Option String) × Option (Option String) :=
  match attrs.lookup name with
  | some old => (attrs.map (fun p => if p.1 = name then (name, v) else p), some old)
  | none => (attrs ++ [(name, v)], none)

/-- Model of `HtmlElement::attribute` (html.rs lines 492-496): insert, then
`debug_assert!(old_value.is_none(), ...)`. `dbg` is whether debug assertions
are compiled in: with `dbg = true` a duplicate is a fatal error, with
`dbg = false` the assert is compiled out and the insert stands. -/
def attributeDbg (dbg : Bool) (attrs : List (String × Option String)) (name : String)
    (v : Option String) : Except String (List (String × Option String)) :=
  let r := attributeInsert attrs name v
  if dbg ∧ r.2.isSome then .error ("attempt to override attribute " ++ name)
  else .ok r.1

/-- Model of `HtmlElement::attribute_opt` (html.rs lines 497-503): a `None`
value leaves the map untouched, a present value behaves like `attribute`. -/
def attributeOptDbg (dbg : Bool) (attrs : List (String × Option String)) (name : String)
    (vopt : Option (Option String)) : Except String (List (String × Option String)) :=
  match vopt with
  | none => .ok attrs
  | some v => attributeDbg dbg attrs name v

/-! ## Plain-text escaping (src/web/html.rs, `HtmlPlaintext`) -/

/-- Model of `HtmlFormat` (html.rs lines 9-13). -/
inductive HtmlFormat where
  | indent (n : Nat)
  | preformatted
deriving DecidableEq

/-- Model of `str::replace` for a single-character pattern: `str::replace`
substitutes every (one-byte-window) occurrence left to right, which for a
one-character pattern is a per-character substitution. -/
def replaceChar (pat : Char) (sub : List Char) (s : List Char) : List Char :=
  s.flatMap (fun c => if c = pat then sub else [c])

/-- Model of `self.0.replace("\r\n", "\n")` (html.rs line 638): substitute
non-overlapping CR-LF pairs left to right. -/
def crlfNormalize : List Char → List Char
  | [] => []
  | [c] => [c]
  | c1 :: c2 :: rest =>
    if c1 = '\r' ∧ c2 = '\n' then '\n' :: crlfNormalize rest
    else c1 :: crlfNormalize (c2 :: rest)

/-- The five entity replacements of `HtmlPlaintext::build` (html.rs lines
639-643), applied in source order after CR-LF normalization. -/
def htmlEscapeChars (s : List Char) : List Char :=
  replaceChar apos "&#x27;".data
    (replaceChar '"' "&quot;".data
      (replaceChar '>' "&gt;".data
        (replaceChar '<' "&lt;".data
          (replaceChar '&' "&amp;".data s))))

/-- Split on line-feed characters, keeping empty segments (the plain split that
`str::lines` refines). -/
def splitNl : List Char → List (List Char)
  | [] => [[]]
  | c :: rest =>
    if c = '\n' then [] :: splitNl rest
    else
      match splitNl rest with
      | [] => [[c]]
      | l :: ls => (c :: l) :: ls

/-- Strip one trailing carriage return from a line, as `str::lines` does. -/
def stripCr (l : List Char) : List Char :=
  if l.getLast? = some '\r' then l.dropLast else l

/-- Model of `str::lines()`: split on `\n`, drop a final empty segment, strip
one trailing `\r` per line. -/
def rustLines (s : List Char) : List (List Char) :=
  (if (splitNl s).getLast? = some [] then (splitNl s).dropLast else splitNl s).map stripCr

/-- Join pieces with a separator between them (the `intersperse` + write loop
of html.rs lines 646-649). -/
def joinSep (sep : List Char) : List (List Char) → List Char
  | [] => []
  | [l] => l
  | l :: rest => l ++ sep ++ joinSep sep rest

/-- Model of `HtmlPlaintext::build` (html.rs lines 636-653): normalize CR-LF,
escape the five characters, and in `Indent` mode rejoin the lines with a
newline plus `indent * 4` spaces. -/
def plaintextBuild (format : HtmlFormat) (s : List Char) : List Char :=
  let text := htmlEscapeChars (crlfNormalize s)
  match format with
  | .preformatted => text
  | .indent n => joinSep ('\n' :: List.replicate (n * 4) ' ') (rustLines text)

/-- Modelled from the spec sentence of C8: the per-character escape map the
five sequential replacements amount to. -/
def escChar (c : Char) : List Char :=
  if c = '&' then "&amp;".data
  else if c = '<' then "&lt;".data
  else if c = '>' then "&gt;".data
  else if c = '"' then "&quot;".data
  else if c = apos then "&#x27;".data
  else [c]

/-- Modelled from the spec sentence of C8: after an ampersand, which of the
five entities the escaper emits comes next, with its decoded character and its
length in the remaining text. -/
def entityAt (l : List Char) : Option (Char × Nat) :=
  if l.take 4 = ['a', 'm', 'p', ';'] then some ('&', 4)
  else if l.take 3 = ['l', 't', ';'] then some ('<', 3)
  else if l.take 3 = ['g', 't', ';'] then some ('>', 3)
  else if l.take 5 = ['q', 'u', 'o', 't', ';'] then some ('"', 5)
  else if l.take 5 = ['#', 'x', '2', '7', ';'] then some (Char.ofNat 39, 5)
  else none

/-- Entity decoding loop, structurally recursive on a fuel bound of the text
length: at an ampersand, decode whichever known entity follows and skip it;
copy every other character through. Any fuel at least the text's length gives
the same result (`decodeFuel_congr`). -/
def decodeFuel : Nat → List Char → List Char
  | _, [] => []
  | 0, l => l
  | fuel + 1, c :: rest =>
    if c = '&' then
      match entityAt rest with
      | some p => p.1 :: decodeFuel fuel (rest.drop p.2)
      | none => '&' :: decodeFuel fuel rest
    else c :: decodeFuel fuel rest

/-- Modelled from the spec sentence of C8: a standard HTML entity decoder (the
conceptual unescape the claim composes with serialization), scanning left to
right and decoding the five entities the escaper emits. -/
def htmlEntityDecode (l : List Char) : List Char := decodeFuel l.length l

/-! ## Documents and link titles (src/website.rs) -/

/-- Model of `Document` (website.rs lines 54-60) with the fields the title and
route subsystems read: `HtmlDocument` and `FeedDocument` both carry a `title`
field, `CSSDocument` and `ResourceDocument` do not. -/
inductive Document where
  | html (id docTitle : String) (category : Option String)
  | feed (id docTitle : String) (category : Option String)
  | css (id : String)
  | resource (id : String)
deriving DecidableEq

/-- Model of `Document::id` (website.rs lines 63-70). -/
def Document.id : Document → String
  | .html i _ _ => i
  | .feed i _ _ => i
  | .css i => i
  | .resource i => i

/-- Model of `Document::title` (website.rs lines 72-79): only the `HTML`
variant exposes its title; `Feed`, `Css` and `Resource` yield `None` (a feed's
own `title` field is ignored here). -/
def Document.title : Document → Option String
  | .html _ t _ => some t
  | .feed _ _ _ => none
  | .css _ => none
  | .resource _ => none

/-- Whether a document is the `HTML` variant. -/
def Document.isHtmlPage : Document → Bool
  | .html _ _ _ => true
  | _ => false

/-- Model of the `document_titles` map construction (website.rs line 505):
`documents.iter().filter_map(|d| d.title().map(|title| (d.id(), title)))`. -/
def documentTitles (docs : List Document) : List (String × String) :=
  docs.filterMap (fun d => d.title.map (fun t => (d.id, t)))

/-- Panics of `WebsiteRenderContext::resolve_link_title` (website.rs lines
578-584), modelled as error values carrying the interpolated link id. -/
inductive TitleErr where
  | withoutTitle (id : String)
  | unknownId (id : String)
deriving DecidableEq

/-- Model of `WebsiteRenderContext::resolve_link_title` (website.rs lines
575-588): a `ByID` link takes its title from the `document_titles` map; a miss
is fatal, distinguished by whether the id is in the route table. -/
def resolveLinkTitle (titles : List (String × String))
    (routes : List (String × List String)) (link : Link) : Except TitleErr String :=
  match link with
  | .byId id =>
    match titles.lookup id with
    | some t => .ok t
    | none =>
      .error (if (routes.lookup id).isSome then .withoutTitle id else .unknownId id)
  | .custom name _ => .ok name

/-- Fold a whole registration sequence into a builder with
`CSSBuilder::register`. -/
def registerAll {G : Type} [DecidableEq G] (b : CSSBuilder G) (regs : List G) :
    CSSBuilder G :=
  regs.foldl CSSBuilder.register b

deriving instance DecidableEq for Except

/-! ## Helper lemmas -/

theorem commonLen_eq_specCommonLen : ∀ f t : List String, commonLen f t = specCommonLen f t := by
  intro f
  induction f with
  | nil => intro t; cases t <;> rfl
  | cons a as ih =>
    intro t
    cases t with
    | nil => rfl
    | cons b bs =>
      by_cases h : a = b
      · subst h
        have h2 := ih bs
        simp [commonLen, specCommonLen, List.takeWhile_cons] at h2 ⊢
        exact h2
      · simp [commonLen, specCommonLen, List.takeWhile_cons, h]

/-! ## C1: href resolution follows the spec formula -/

/-- C1: for every `ByID` link whose source page and target document both have
routes in the route table, `resolve_href` returns exactly what the spec's
formula prescribes: with `k` the common leading-segment length, `./` plus the
target's last segment when `k` equals the target's length, and otherwise
`(len(from) - k - 1)` copies of `../` followed by the target's segments from
`k` on joined with `/`; a `Custom` link returns its destination unchanged. -/
theorem resolveHref_matches_spec (routes : List (String × List String))
    (fromId toId ttl dest : String) (f t : List String)
    (hf : routes.lookup fromId = some f) (ht : routes.lookup toId = some t)
    (hne : t ≠ []) :
    resolveHref routes (.byId toId) fromId = .ok (hrefClaim f t hne) ∧
    resolveHref routes (.custom ttl dest) fromId = .ok dest := by
  refine ⟨?_, rfl⟩
  simp only [resolveHref, hf, ht, hrefClaim, commonLen_eq_specCommonLen]
  split
  · rw [List.getLast?_eq_getLast t hne]
  · rfl

/-- Witness for C1 at a concrete route table. -/
theorem resolveHref_matches_spec_witness :
    resolveHref [("a", ["x.html"]), ("b", ["y.html"])] (.byId "b") "a"
      = .ok (hrefClaim ["x.html"] ["y.html"] (by decide)) ∧
    resolveHref [("a", ["x.html"]), ("b", ["y.html"])] (.custom "T" "D") "a"
      = .ok "D" :=
  resolveHref_matches_spec _ "a" "b" "T" "D" _ _ (by decide) (by decide) (by decide)

/-! ## C2: the worked routing example -/

/-- C2 counterexample: with the post at `["blog", "tech", "post.html"]` and a
sibling at `["blog", "tech", "sib.html"]`, the common-segment count is 2, not
the target length 3, so the sibling link resolves to `post.html` and not to
`./post.html` as the claim states. -/
theorem siblingLink_counterexample :
    resolveHref [("home", ["index.html"]), ("post", ["blog", "tech", "post.html"]),
        ("sib", ["blog", "tech", "sib.html"])] (.byId "post") "sib"
      = .ok "post.html" ∧
    resolveHref [("home", ["index.html"]), ("post", ["blog", "tech", "post.html"]),
        ("sib", ["blog", "tech", "sib.html"])] (.byId "post") "sib"
      ≠ .ok "./post.html" := by
  decide

/-- C2 as amended: a link from the home page (route `["index.html"]`) to the
post resolves to `blog/tech/post.html`, and a link from a sibling post under
`blog/tech` resolves to `post.html` (the `./` form appears only when the target
route is exhausted by the common segments, as for a self-link). -/
theorem siblingLink_amended :
    resolveHref [("home", ["index.html"]), ("post", ["blog", "tech", "post.html"]),
        ("sib", ["blog", "tech", "sib.html"])] (.byId "post") "home"
      = .ok "blog/tech/post.html" ∧
    resolveHref [("home", ["index.html"]), ("post", ["blog", "tech", "post.html"]),
        ("sib", ["blog", "tech", "sib.html"])] (.byId "post") "sib"
      = .ok "post.html" ∧
    resolveHref [("home", ["index.html"]), ("post", ["blog", "tech", "post.html"]),
        ("sib", ["blog", "tech", "sib.html"])] (.byId "post") "post"
      = .ok "./post.html" := by
  decide

/-! ## C4: attribute serialization order -/

/-- C4: evaluating the attribute serialization at the attribute set
`id="a" class="b" zeta="c"` shows the emitted order is `zeta class id` — the
lexicographic non-priority attributes come first and the `ATTRIBUTE_ORDER`
attributes follow in reverse priority — because the comparator of html.rs lines
542-552 binds its first parameter to `r_key` and reverses the index comparison,
flipping the intended order; the claimed order would be `id class zeta`. -/
theorem attributeOrder_eval :
    attributesText [("id", some "a"), ("class", some "b"), ("zeta", some "c")]
      = " zeta=\"c\" class=\"b\" id=\"a\"" ∧
    (sortAttributes [("id", some "a"), ("class", some "b"), ("zeta", some "c")]).map Prod.fst
      = ["zeta", "class", "id"] ∧
    ["zeta", "class", "id"] ≠ ["id", "class", "zeta"] := by
  decide

/-! ## C5: duplicate attributes -/

/-- C5 counterexample: with debug assertions compiled out (`dbg = false`, the
release profile), setting `id` a second time is not fatal — the call returns
successfully and the second value has replaced the first. -/
theorem attributeOverride_counterexample :
    attributeDbg false [("id", some "a")] "id" (some "b") = .ok [("id", some "b")] ∧
    (∀ e, attributeDbg false [("id", some "a")] "id" (some "b") ≠ .error e) := by
  refine ⟨by decide, ?_⟩
  intro e h
  simp [attributeDbg, attributeInsert] at h

/-- C5 as amended: setting the same attribute name twice (via `attribute`, or
`attribute_opt` with a present value) is fatal when debug assertions are
enabled; in release builds the `debug_assert!` is compiled out and the second
value silently replaces the first. -/
theorem attributeOverride_amended (attrs : List (String × Option String))
    (name : String) (v old : Option String) (h : attrs.lookup name = some old) :
    attributeDbg true attrs name v = .error ("attempt to override attribute " ++ name) ∧
    attributeOptDbg true attrs name (some v)
      = .error ("attempt to override attribute " ++ name) := by
  have h2 : (attributeInsert attrs name v).2 = some old := by
    simp [attributeInsert, h]
  constructor <;> simp [attributeOptDbg, attributeDbg, h2]

/-- Witness for C5's amended statement at a concrete attribute map. -/
theorem attributeOverride_amended_witness :
    attributeDbg true [("id", some "a")] "id" (some "b")
      = .error ("attempt to override attribute " ++ "id") ∧
    attributeOptDbg true [("id", some "a")] "id" (some (some "b"))
      = .error ("attempt to override attribute " ++ "id") :=
  attributeOverride_amended [("id", some "a")] "id" (some "b") (some "a") (by decide)

theorem mem_indexSetInsert_self {α : Type} [DecidableEq α] (s : List α) (a : α) :
    a ∈ indexSetInsert s a := by
  unfold indexSetInsert
  split
  · assumption
  · simp

theorem mem_indexSetInsert_of_mem {α : Type} [DecidableEq α] {s : List α} {b : α}
    (a : α) (h : b ∈ s) : b ∈ indexSetInsert s a := by
  unfold indexSetInsert
  split
  · exact h
  · exact List.mem_append_left _ h

theorem indexSetInsert_of_mem {α : Type} [DecidableEq α] {s : List α} {a : α}
    (h : a ∈ s) : indexSetInsert s a = s := by
  simp [indexSetInsert, h]

theorem mem_foldl_indexSetInsert {α : Type} [DecidableEq α] :
    ∀ (l : List α) (acc : List α) (a : α), a ∈ acc → a ∈ l.foldl indexSetInsert acc := by
  intro l
  induction l with
  | nil => intro acc a h; exact h
  | cons x xs ih =>
    intro acc a h
    exact ih _ a (mem_indexSetInsert_of_mem x h)

theorem mem_foldl_indexSetInsert_of_mem {α : Type} [DecidableEq α] :
    ∀ (l : List α) (acc : List α) (a : α), a ∈ l → a ∈ l.foldl indexSetInsert acc := by
  intro l
  induction l with
  | nil => intro acc a h; cases h
  | cons x xs ih =>
    intro acc a h
    rcases List.mem_cons.mp h with h | h
    · subst h
      exact mem_foldl_indexSetInsert xs _ a (mem_indexSetInsert_self acc a)
    · exact ih _ a h

theorem foldl_indexSetInsert_skip {α : Type} [DecidableEq α] (ys zs : List α)
    (g : α) (acc : List α) (h : g ∈ acc) :
    (ys ++ g :: zs).foldl indexSetInsert acc = (ys ++ zs).foldl indexSetInsert acc := by
  rw [List.foldl_append, List.foldl_append]
  have hmem : g ∈ ys.foldl indexSetInsert acc := mem_foldl_indexSetInsert ys acc g h
  show List.foldl indexSetInsert (indexSetInsert (ys.foldl indexSetInsert acc) g) zs
      = List.foldl indexSetInsert (ys.foldl indexSetInsert acc) zs
  rw [indexSetInsert_of_mem hmem]

theorem nodup_indexSetInsert {α : Type} [DecidableEq α] {s : List α} (a : α)
    (h : s.Nodup) : (indexSetInsert s a).Nodup := by
  unfold indexSetInsert
  split
  · exact h
  · rename_i hmem
    simp [List.nodup_append, h, hmem]

theorem nodup_foldl_indexSetInsert {α : Type} [DecidableEq α] :
    ∀ (l : List α) (acc : List α), acc.Nodup → (l.foldl indexSetInsert acc).Nodup := by
  intro l
  induction l with
  | nil => intro acc h; exact h
  | cons x xs ih => intro acc h; exact ih _ (nodup_indexSetInsert x h)

theorem registerAll_rules {G : Type} [DecidableEq G] :
    ∀ (regs : List G) (b : CSSBuilder G),
      (registerAll b regs).rules = regs.foldl indexSetInsert b.rules := by
  intro regs
  induction regs with
  | nil => intro b; rfl
  | cons g gs ih =>
    intro b
    show (registerAll (b.register g) gs).rules = _
    rw [ih]
    rfl

/-! ## C6: style-rule registration is idempotent, identity-keyed -/

/-- C6: registering the same generator `g` twice in one stylesheet build leaves
the rules set exactly as if the second registration had not happened — `g`
keeps its first-registration position and every other generator keeps its
first-registration order — and the built rules set (which `write` evaluates in
list order, css.rs line 83) holds exactly one copy of `g`. Deduplication is by
the generator's identity alone: `G` is abstract here, so registration cannot
evaluate a generator. -/
theorem register_idempotent (G : Type) [DecidableEq G] (xs ys zs : List G) (g : G) :
    (registerAll (CSSBuilder.empty G) (xs ++ g :: (ys ++ g :: zs))).rules
      = (registerAll (CSSBuilder.empty G) (xs ++ g :: (ys ++ zs))).rules ∧
    ((registerAll (CSSBuilder.empty G) (xs ++ g :: (ys ++ zs))).rules).count g = 1 := by
  rw [registerAll_rules, registerAll_rules]
  constructor
  · show List.foldl indexSetInsert [] (xs ++ g :: (ys ++ g :: zs))
        = List.foldl indexSetInsert [] (xs ++ g :: (ys ++ zs))
    rw [List.foldl_append, List.foldl_append]
    show List.foldl indexSetInsert (indexSetInsert (List.foldl indexSetInsert [] xs) g)
        (ys ++ g :: zs) = _
    exact foldl_indexSetInsert_skip ys zs g _ (mem_indexSetInsert_self _ g)
  · have hmem : g ∈ (xs ++ g :: (ys ++ zs)) := by simp
    have hin := mem_foldl_indexSetInsert_of_mem (xs ++ g :: (ys ++ zs)) ([] : List G) g hmem
    have hnd := nodup_foldl_indexSetInsert (xs ++ g :: (ys ++ zs)) ([] : List G) List.nodup_nil
    exact List.count_eq_one_of_mem hnd hin

theorem buildImports_imports :
    ∀ (regs : List String) (b : CSSBuilder Unit),
      (regs.foldl CSSBuilder.importSource b).imports = regs.foldl indexSetInsert b.imports := by
  intro regs
  induction regs with
  | nil => intro b; rfl
  | cons s ss ih =>
    intro b
    show ((ss.foldl CSSBuilder.importSource (b.importSource s))).imports = _
    rw [ih]
    rfl

theorem foldl_indexSetInsert_ne_nil {α : Type} [DecidableEq α] (l : List α)
    (x : α) (xs : List α) (h : l = x :: xs) : l.foldl indexSetInsert [] ≠ [] := by
  intro hnil
  have : x ∈ l.foldl indexSetInsert ([] : List α) :=
    mem_foldl_indexSetInsert_of_mem l [] x (by rw [h]; simp)
  rw [hnil] at this
  cases this

/-! ## C7: import lines are emitted verbatim -/

/-- C7 counterexample: registering the import text `url(x)` produces the line
`@import url(x);` — the text is not wrapped in double quotes as the claim
states, matching the call site in main.rs line 101 which passes a `url(...)`
expression that must not be quoted. -/
theorem writeImports_counterexample :
    ((CSSBuilder.empty Unit).importSource "url(x)").writeImports
      = "@import url(x);\n\n" ∧
    ((CSSBuilder.empty Unit).importSource "url(x)").writeImports
      ≠ "@import \"url(x)\";\n\n" := by
  constructor
  · rfl
  · decide

/-- C7 as amended: each registered import text `t` is emitted verbatim as the
line `@import t;` (no quoting added), in first-registration order with repeats
dropped, and a single blank line follows the imports exactly when at least
one import was registered. -/
theorem writeImports_amended (regs : List String) :
    (buildImports regs).writeImports
      = String.join ((registerFold regs).map writeImportLine)
        ++ (if regs = [] then "" else "\n") := by
  show (regs.foldl CSSBuilder.importSource (CSSBuilder.empty Unit)).writeImports = _
  unfold CSSBuilder.writeImports
  rw [buildImports_imports]
  have himp : regs.foldl indexSetInsert (CSSBuilder.empty Unit).imports
      = registerFold regs := rfl
  rw [himp]
  cases hr : regs with
  | nil => rfl
  | cons x xs =>
    have hne : registerFold regs ≠ [] := foldl_indexSetInsert_ne_nil regs x xs hr
    rw [← hr]
    have hlen : 0 < (registerFold regs).length := List.length_pos.mpr hne
    rw [hr] at hlen
    simp [hlen, hr]

theorem crlfNormalize_noop : ∀ s : List Char, '\r' ∉ s → crlfNormalize s = s := by
  intro s
  induction s with
  | nil => intro _; rfl
  | cons c rest ih =>
    intro h
    have hc : c ≠ '\r' := fun hh => h (hh ▸ List.mem_cons_self c rest)
    have hr : '\r' ∉ rest := fun hm => h (List.mem_cons_of_mem c hm)
    cases rest with
    | nil => rfl
    | cons c2 rest2 =>
      show crlfNormalize (c :: c2 :: rest2) = c :: c2 :: rest2
      rw [crlfNormalize]
      rw [if_neg (by simp [hc])]
      rw [ih hr]

theorem htmlEscapeChars_cons (c : Char) (s : List Char) :
    htmlEscapeChars (c :: s) = htmlEscapeChars [c] ++ htmlEscapeChars s := by
  simp [htmlEscapeChars, replaceChar]

theorem htmlEscapeChars_single (c : Char) : htmlEscapeChars [c] = escChar c := by
  by_cases h1 : c = '&'
  · subst h1; rfl
  by_cases h2 : c = '<'
  · subst h2; rfl
  by_cases h3 : c = '>'
  · subst h3; rfl
  by_cases h4 : c = '"'
  · subst h4; rfl
  by_cases h5 : c = apos
  · subst h5; rfl
  simp [htmlEscapeChars, replaceChar, escChar, h1, h2, h3, h4, h5]

theorem htmlEscapeChars_eq_flat : ∀ s : List Char, htmlEscapeChars s = s.flatMap escChar := by
  intro s
  induction s with
  | nil => rfl
  | cons c rest ih =>
    rw [htmlEscapeChars_cons, htmlEscapeChars_single, ih, List.flatMap_cons]

theorem decodeFuel_congr : ∀ (f1 : Nat), ∀ (f2 : Nat) (l : List Char),
    l.length ≤ f1 → l.length ≤ f2 → decodeFuel f1 l = decodeFuel f2 l := by
  intro f1
  induction f1 with
  | zero =>
    intro f2 l h1 _
    have hn : l = [] := List.eq_nil_of_length_eq_zero (Nat.le_zero.mp h1)
    subst hn
    cases f2 <;> rfl
  | succ n ih =>
    intro f2 l h1 h2
    cases l with
    | nil => cases f2 <;> rfl
    | cons c rest =>
      cases f2 with
      | zero => simp at h2
      | succ m =>
        simp only [List.length_cons, Nat.succ_le_succ_iff] at h1 h2
        rw [decodeFuel, decodeFuel]
        by_cases hc : c = '&'
        · rw [if_pos hc, if_pos hc]
          cases he : entityAt rest with
          | some p =>
            have hd : (rest.drop p.2).length ≤ rest.length := by
              simp [List.length_drop]
            exact congrArg _ (ih m _ (le_trans hd h1) (le_trans hd h2))
          | none =>
            exact congrArg _ (ih m _ h1 h2)
        · rw [if_neg hc, if_neg hc]
          exact congrArg _ (ih m _ h1 h2)

theorem htmlEntityDecode_cons_ne (c : Char) (h : c ≠ '&') (l : List Char) :
    htmlEntityDecode (c :: l) = c :: htmlEntityDecode l := by
  show decodeFuel (l.length + 1) (c :: l) = _
  rw [decodeFuel, if_neg h]
  rfl

theorem htmlEntityDecode_entity (rest t : List Char) (d : Char) (k : Nat)
    (he : entityAt rest = some (d, k)) (hd : rest.drop k = t)
    (hk : rest.length = t.length + k) :
    htmlEntityDecode ('&' :: rest) = d :: htmlEntityDecode t := by
  show decodeFuel (('&' :: rest).length) _ = _
  have hl : ('&' :: rest).length = rest.length + 1 := by simp
  rw [hl, decodeFuel, if_pos rfl, he]
  show d :: decodeFuel rest.length (rest.drop k) = _
  rw [hd]
  exact congrArg _ (decodeFuel_congr _ _ t (by omega) (by omega))

theorem htmlEntityDecode_escChar (c : Char) (t : List Char) :
    htmlEntityDecode (escChar c ++ t) = c :: htmlEntityDecode t := by
  by_cases h1 : c = '&'
  · subst h1
    exact htmlEntityDecode_entity ('a' :: 'm' :: 'p' :: ';' :: t) t '&' 4
      (by simp [entityAt]) rfl (by simp)
  by_cases h2 : c = '<'
  · subst h2
    exact htmlEntityDecode_entity ('l' :: 't' :: ';' :: t) t '<' 3
      (by simp [entityAt]) rfl (by simp)
  by_cases h3 : c = '>'
  · subst h3
    exact htmlEntityDecode_entity ('g' :: 't' :: ';' :: t) t '>' 3
      (by simp [entityAt]) rfl (by simp)
  by_cases h4 : c = '"'
  · subst h4
    exact htmlEntityDecode_entity ('q' :: 'u' :: 'o' :: 't' :: ';' :: t) t '"' 5
      (by simp [entityAt]) rfl (by simp)
  by_cases h5 : c = apos
  · subst h5
    exact htmlEntityDecode_entity ('#' :: 'x' :: '2' :: '7' :: ';' :: t) t (Char.ofNat 39) 5
      (by simp [entityAt]) rfl (by simp)
  · have he : escChar c = [c] := by simp [escChar, h1, h2, h3, h4, h5]
    rw [he]
    exact htmlEntityDecode_cons_ne c h1 t

theorem htmlEntityDecode_flat : ∀ s : List Char, htmlEntityDecode (s.flatMap escChar) = s := by
  intro s
  induction s with
  | nil => rfl
  | cons c rest ih =>
    rw [List.flatMap_cons, htmlEntityDecode_escChar, ih]

/-! ## C8: plain-text escape round trip -/

/-- C8 counterexample: the input `a\r\nb` contains a newline, yet serializing
it (here in `Preformatted` mode, which adds no indentation) and decoding the
entities yields `a\nb`, not the original text: html.rs line 638 normalizes
CR-LF to LF before escaping, so the round trip is not the identity on the
original text's line breaks. -/
theorem plaintextRoundTrip_counterexample :
    htmlEntityDecode (plaintextBuild .preformatted ['a', '\r', '\n', 'b'])
      = ['a', '\n', 'b'] ∧
    (['a', '\n', 'b'] : List Char) ≠ ['a', '\r', '\n', 'b'] := by
  constructor
  · rfl
  · decide

/-- C8 as amended: for every input containing no carriage return (in
particular any input over `& < > " '` and bare LF newlines), serializing the
plain-text node in `Preformatted` mode escapes the five characters and a
standard HTML entity decoder applied to the output reproduces the original
text exactly, line breaks included. -/
theorem plaintextRoundTrip (s : List Char) (h : '\r' ∉ s) :
    htmlEntityDecode (plaintextBuild .preformatted s) = s := by
  show htmlEntityDecode (htmlEscapeChars (crlfNormalize s)) = s
  rw [crlfNormalize_noop s h, htmlEscapeChars_eq_flat, htmlEntityDecode_flat]

/-- Witness for C8's amended statement on a concrete string with all five
escaped characters and a newline. -/
theorem plaintextRoundTrip_witness :
    '\r' ∉ ("a&b<c>d\"e'f\ng".data) ∧
    htmlEntityDecode (plaintextBuild .preformatted "a&b<c>d\"e'f\ng".data)
      = "a&b<c>d\"e'f\ng".data :=
  ⟨by decide, plaintextRoundTrip _ (by decide)⟩

theorem lookup_mem {α β : Type} [DecidableEq α] [BEq α] [LawfulBEq α] :
    ∀ (l : List (α × β)) (a : α) (b : β), l.lookup a = some b → (a, b) ∈ l := by
  intro l
  induction l with
  | nil => intro a b h; cases h
  | cons p rest ih =>
    intro a b h
    rw [List.lookup] at h
    cases hbeq : a == p.1 with
    | true =>
      rw [hbeq] at h
      have hb : p.2 = b := by injection h
      have ha : a = p.1 := by simpa using hbeq
      rw [ha, ← hb]
      exact List.mem_cons_self _ _
    | false =>
      rw [hbeq] at h
      exact List.mem_cons_of_mem _ (ih a b h)

theorem documentTitles_lookup_none (docs : List Document) (i : String)
    (h : ∀ d2 ∈ docs, d2.id = i → d2.title = none) :
    (documentTitles docs).lookup i = none := by
  induction docs with
  | nil => rfl
  | cons d rest ih =>
    have hrest := ih (fun d2 hm he => h d2 (List.mem_cons_of_mem d hm) he)
    cases hd : d.title with
    | none =>
      show (List.filterMap _ (d :: rest)).lookup i = none
      rw [List.filterMap_cons]
      simp only [hd, Option.map_none]
      exact hrest
    | some t0 =>
      have hne : d.id ≠ i := by
        intro he
        have hnone := h d (List.mem_cons_self d rest) he
        rw [hd] at hnone
        cases hnone
      show (List.filterMap _ (d :: rest)).lookup i = none
      rw [List.filterMap_cons]
      simp only [hd, Option.map_some]
      show (match i == d.id with
        | true => some t0
        | false => (documentTitles rest).lookup i) = none
      have hbeq : (i == d.id) = false := by simp [Ne.symm hne]
      rw [hbeq]
      exact hrest

/-! ## C10: non-HTML documents have no title, so auto-titled links to them are fatal -/

/-- C10: every non-HTML document variant (`Feed`, `Css`, `Resource`) exposes no
title, so for a routed document `d` of such a variant (whose id no titled
document shares), resolving the display title of a `ByID` link to `d` is the
fatal "document without title" case even though resolving the same link's href
succeeds; conversely a successfully auto-titled link always targets an `HTML`
document. -/
theorem nonHtml_title_fatal :
    (∀ d : Document, d.isHtmlPage = false → d.title = none) ∧
    (∀ (docs : List Document) (routes : List (String × List String)) (d : Document)
        (fromId : String) (f t : List String),
      d ∈ docs → d.isHtmlPage = false →
      (∀ d2 ∈ docs, d2.id = d.id → d2.isHtmlPage = false) →
      routes.lookup d.id = some t → t ≠ [] → routes.lookup fromId = some f →
      resolveLinkTitle (documentTitles docs) routes (.byId d.id)
        = .error (.withoutTitle d.id) ∧
      ∃ href, resolveHref routes (.byId d.id) fromId = .ok href) ∧
    (∀ (docs : List Document) (routes : List (String × List String)) (i t2 : String),
      resolveLinkTitle (documentTitles docs) routes (.byId i) = .ok t2 →
      ∃ d, d ∈ docs ∧ d.isHtmlPage = true ∧ d.id = i ∧ d.title = some t2) := by
  refine ⟨?_, ?_, ?_⟩
  · intro d h
    cases d with
    | html i t c => cases h
    | feed i t c => rfl
    | css i => rfl
    | resource i => rfl
  · intro docs routes d fromId f t hmem hpage hall ht hne hf
    have htitle : ∀ d2 ∈ docs, d2.id = d.id → d2.title = none := by
      intro d2 hm he
      have h2 := hall d2 hm he
      cases d2 with
      | html i t c => cases h2
      | feed i t c => rfl
      | css i => rfl
      | resource i => rfl
    have hlk := documentTitles_lookup_none docs d.id htitle
    constructor
    · simp [resolveLinkTitle, hlk, ht]
    · simp only [resolveHref, hf, ht]
      split
      · rw [List.getLast?_eq_getLast t hne]
        exact ⟨_, rfl⟩
      · exact ⟨_, rfl⟩
  · intro docs routes i t2 h
    simp only [resolveLinkTitle] at h
    cases hlk : (documentTitles docs).lookup i with
    | none =>
      rw [hlk] at h
      simp at h
    | some t3 =>
      rw [hlk] at h
      have h3 : t3 = t2 := by injection h
      subst h3
      have hp := lookup_mem (documentTitles docs) i t3 hlk
      rcases List.mem_filterMap.mp hp with ⟨d, hd, hmap⟩
      cases hdt : d.title with
      | none =>
        rw [hdt] at hmap
        cases hmap
      | some t4 =>
        rw [hdt] at hmap
        have hpair : (d.id, t4) = (i, t3) := by injection hmap
        have hid : d.id = i := congrArg Prod.fst hpair
        have ht4 : t4 = t3 := congrArg Prod.snd hpair
        refine ⟨d, hd, ?_, hid, ?_⟩
        · cases d with
          | html a b c => rfl
          | feed a b c => exact Option.noConfusion hdt
          | css a => exact Option.noConfusion hdt
          | resource a => exact Option.noConfusion hdt
        · rw [hdt, ht4]

/-- Witness for C10 at a concrete document set: a routed feed document with an
untitled id, linked from a routed HTML page. -/
theorem nonHtml_title_fatal_witness :
    resolveLinkTitle
        (documentTitles [Document.feed "f" "FT" none, Document.html "h" "H" none])
        [("f", ["f.rss"]), ("h", ["index.html"])] (.byId (Document.feed "f" "FT" none).id)
      = .error (.withoutTitle (Document.feed "f" "FT" none).id) ∧
    ∃ href, resolveHref [("f", ["f.rss"]), ("h", ["index.html"])]
        (.byId (Document.feed "f" "FT" none).id) "h" = .ok href :=
  nonHtml_title_fatal.2.1 [Document.feed "f" "FT" none, Document.html "h" "H" none]
    [("f", ["f.rss"]), ("h", ["index.html"])] (Document.feed "f" "FT" none) "h"
    ["index.html"] ["f.rss"] (by decide) (by decide) (by decide) (by decide)
    (by decide) (by decide)

theorem catPath_error_shape (catmap : List (String × List String)) (d : DocSpec)
    (e : BuildErr) (h : catPath catmap d = .error e) : ∃ i c, e = .invalidCategory i c := by
  cases hc : d.category with
  | none => simp [catPath, hc] at h
  | some c =>
    cases hl : catmap.lookup c with
    | none =>
      simp [catPath, hc, hl] at h
      exact ⟨d.id, c, h.symm⟩
    | some p => simp [catPath, hc, hl] at h

theorem docRoute_of_catPath (catmap : List (String × List String)) (d : DocSpec)
    (p : List String) (h : catPath catmap d = .ok p) :
    docRoute catmap d = some (p ++ filenameSegments d) := by
  unfold docRoute
  rw [h]
  rfl

theorem buildLoop_ok_nodup (catmap : List (String × List String)) :
    ∀ (docs : List DocSpec) (idSet : List String) (routes : List (String × List String))
      (routeSet : List (List String)) (res : List (String × List String)),
      buildLoop catmap docs idSet routes routeSet = .ok res →
      ((docs.map DocSpec.id).Nodup ∧ ∀ i ∈ docs.map DocSpec.id, i ∉ idSet) ∧
      ((docs.filterMap (docRoute catmap)).Nodup ∧
        ∀ r ∈ docs.filterMap (docRoute catmap), r ∉ routeSet) := by
  intro docs
  induction docs with
  | nil =>
    intro idSet routes routeSet res _
    simp
  | cons d rest ih =>
    intro idSet routes routeSet res h
    rw [buildLoop] at h
    split at h
    · cases h
    rename_i hid
    split at h
    · cases h
    rename_i p hcat
    split at h
    · cases h
    rename_i hdd
    split at h
    · cases h
    rename_i hrt
    have hrec := ih _ _ _ _ h
    have hdr := docRoute_of_catPath catmap d p hcat
    refine ⟨⟨?_, ?_⟩, ?_, ?_⟩
    · rw [List.map_cons, List.nodup_cons]
      refine ⟨?_, hrec.1.1⟩
      intro hmem
      exact hrec.1.2 d.id hmem (List.mem_append_right _ (List.mem_singleton.mpr rfl))
    · intro i hi
      rw [List.map_cons] at hi
      rcases List.mem_cons.mp hi with hi | hi
      · subst hi; exact hid
      · intro hin
        exact hrec.1.2 i hi (List.mem_append_left _ hin)
    · rw [List.filterMap_cons, hdr]
      rw [List.nodup_cons]
      refine ⟨?_, hrec.2.1⟩
      intro hmem
      exact hrec.2.2 _ hmem (List.mem_append_right _ (List.mem_singleton.mpr rfl))
    · intro r hr
      rw [List.filterMap_cons, hdr] at hr
      rcases List.mem_cons.mp hr with hr | hr
      · subst hr; exact hrt
      · intro hin
        exact hrec.2.2 r hr (List.mem_append_left _ hin)

theorem buildLoop_dupRoute (catmap : List (String × List String)) :
    ∀ (docs prev : List DocSpec) (idSet : List String)
      (routes : List (String × List String)) (routeSet : List (List String))
      (rstr : String) (ids : List String),
      (∀ q ∈ routes, q.1 ∈ idSet ∧
        ∃ d0, d0 ∈ prev ∧ d0.id = q.1 ∧ docRoute catmap d0 = some q.2) →
      (∀ rt ∈ routeSet, ∃ q, q ∈ routes ∧ q.2 = rt) →
      buildLoop catmap docs idSet routes routeSet = .error (.duplicateRoute rstr ids) →
      ∃ dA dB route, dA ∈ prev ++ docs ∧ dB ∈ prev ++ docs ∧ dA.id ≠ dB.id ∧
        docRoute catmap dA = some route ∧ docRoute catmap dB = some route ∧
        dA.id ∈ ids ∧ dB.id ∈ ids ∧ rstr = String.intercalate "/" route := by
  intro docs
  induction docs with
  | nil =>
    intro prev idSet routes routeSet rstr ids h1 h2 h
    exact Except.noConfusion h
  | cons d rest ih =>
    intro prev idSet routes routeSet rstr ids h1 h2 h
    rw [buildLoop] at h
    split at h
    · exact BuildErr.noConfusion (Except.error.inj h)
    rename_i hid
    split at h
    · rename_i e hcat
      rcases catPath_error_shape catmap d e hcat with ⟨i, c, hec⟩
      rw [hec] at h
      exact BuildErr.noConfusion (Except.error.inj h)
    rename_i p hcat
    split at h
    · exact BuildErr.noConfusion (Except.error.inj h)
    rename_i hdd
    split at h
    · rename_i hrt
      have hinj := Except.error.inj h
      have hr : String.intercalate "/" (p ++ filenameSegments d) = rstr :=
        congrArg (fun x => match x with
          | BuildErr.duplicateRoute r _ => r
          | _ => "") hinj
      have hi : ((routes ++ [(d.id, p ++ filenameSegments d)]).filter
          (fun q => q.2 = p ++ filenameSegments d)).map Prod.fst = ids :=
        congrArg (fun x => match x with
          | BuildErr.duplicateRoute _ l => l
          | _ => []) hinj
      rcases h2 _ hrt with ⟨q, hq, hq2⟩
      rcases h1 q hq with ⟨hqid, d0, hd0prev, hd0id, hd0route⟩
      refine ⟨d0, d, p ++ filenameSegments d,
        List.mem_append_left _ hd0prev,
        List.mem_append_right _ (List.mem_cons_self d rest),
        ?_, ?_, docRoute_of_catPath catmap d p hcat, ?_, ?_, hr.symm⟩
      · intro he
        rw [hd0id] at he
        rw [he] at hqid
        exact hid hqid
      · rw [hd0route, hq2]
      · rw [← hi, hd0id]
        apply List.mem_map_of_mem Prod.fst
        rw [List.mem_filter]
        exact ⟨List.mem_append_left _ hq, by simp [hq2]⟩
      · rw [← hi]
        have hm : (d.id, p ++ filenameSegments d) ∈
            (routes ++ [(d.id, p ++ filenameSegments d)]).filter
              (fun q => q.2 = p ++ filenameSegments d) := by
          rw [List.mem_filter]
          exact ⟨List.mem_append_right _ (by simp), by simp⟩
        exact List.mem_map_of_mem Prod.fst hm
    · rename_i hrt
      have hdr := docRoute_of_catPath catmap d p hcat
      have h1n : ∀ q ∈ routes ++ [(d.id, p ++ filenameSegments d)],
          q.1 ∈ idSet ++ [d.id] ∧
          ∃ d0, d0 ∈ prev ++ [d] ∧ d0.id = q.1 ∧ docRoute catmap d0 = some q.2 := by
        intro q hq
        rcases List.mem_append.mp hq with hq | hq
        · rcases h1 q hq with ⟨hqa, d0, hd0, hdi, hdr0⟩
          exact ⟨List.mem_append_left _ hqa, d0, List.mem_append_left _ hd0, hdi, hdr0⟩
        · rw [List.mem_singleton] at hq
          subst hq
          exact ⟨List.mem_append_right _ (by simp), d,
            List.mem_append_right _ (by simp), rfl, hdr⟩
      have h2n : ∀ rt ∈ routeSet ++ [p ++ filenameSegments d],
          ∃ q, q ∈ routes ++ [(d.id, p ++ filenameSegments d)] ∧ q.2 = rt := by
        intro rt hrtm
        rcases List.mem_append.mp hrtm with hm | hm
        · rcases h2 rt hm with ⟨q, hq, hq2⟩
          exact ⟨q, List.mem_append_left _ hq, hq2⟩
        · rw [List.mem_singleton] at hm
          subst hm
          exact ⟨(d.id, p ++ filenameSegments d), List.mem_append_right _ (by simp), rfl⟩
      rcases ih (prev ++ [d]) _ _ _ rstr ids h1n h2n h with
        ⟨dA, dB, route, hA, hB, hne, hra, hrb, hia, hib, hrs⟩
      refine ⟨dA, dB, route, ?_, ?_, hne, hra, hrb, hia, hib, hrs⟩
      · simpa [List.mem_append, List.mem_cons, or_assoc] using hA
      · simpa [List.mem_append, List.mem_cons, or_assoc] using hB

/-! ## C3: duplicate ids and duplicate routes abort the build -/

/-- C3: if any two documents share an id, or any two documents resolve to the
same segment list, route construction (which `Website::build` runs before
creating the `WebsiteBuilder`, so before any rendering) returns a fatal error;
and whenever that error is the duplicate-route case, its id list names both
colliding documents — the earlier one and the current one — each of which maps
to the colliding route, whose joined form is the error's route text. -/
theorem buildRoutes_duplicate (catmap : List (String × List String)) (docs : List DocSpec)
    (h : ¬ (docs.map DocSpec.id).Nodup ∨ ¬ (docs.filterMap (docRoute catmap)).Nodup) :
    (∃ e, websiteBuildRoutes catmap docs = .error e) ∧
    (∀ rstr ids, websiteBuildRoutes catmap docs = .error (.duplicateRoute rstr ids) →
      ∃ dA dB route, dA ∈ docs ∧ dB ∈ docs ∧ dA.id ≠ dB.id ∧
        docRoute catmap dA = some route ∧ docRoute catmap dB = some route ∧
        dA.id ∈ ids ∧ dB.id ∈ ids ∧ rstr = String.intercalate "/" route) := by
  constructor
  · cases he : websiteBuildRoutes catmap docs with
    | error e => exact ⟨e, rfl⟩
    | ok res =>
      exfalso
      have hn := buildLoop_ok_nodup catmap docs [] [] [] res he
      rcases h with h | h
      · exact h hn.1.1
      · exact h hn.2.1
  · intro rstr ids he
    have hres := buildLoop_dupRoute catmap docs [] [] [] [] rstr ids
      (by intro q hq; cases hq) (by intro rt hm; cases hm) he
    simpa using hres

/-- Witness for C3: a category index and a miscategorized index both resolving
to `blog/index.html`. -/
theorem buildRoutes_duplicate_witness :
    (¬ (([⟨"a", some "blog", FName.index, ".html"⟩,
          ⟨"b", some "blog", FName.index, ".html"⟩] : List DocSpec).map DocSpec.id).Nodup ∨
      ¬ (([⟨"a", some "blog", FName.index, ".html"⟩,
          ⟨"b", some "blog", FName.index, ".html"⟩] : List DocSpec).filterMap
            (docRoute [("blog", ["blog"])])).Nodup) ∧
    ((∃ e, websiteBuildRoutes [("blog", ["blog"])]
        [⟨"a", some "blog", FName.index, ".html"⟩, ⟨"b", some "blog", FName.index, ".html"⟩]
      = .error e) ∧
    (∀ rstr ids, websiteBuildRoutes [("blog", ["blog"])]
        [⟨"a", some "blog", FName.index, ".html"⟩, ⟨"b", some "blog", FName.index, ".html"⟩]
      = .error (.duplicateRoute rstr ids) →
      ∃ dA dB route,
        dA ∈ ([⟨"a", some "blog", FName.index, ".html"⟩,
               ⟨"b", some "blog", FName.index, ".html"⟩] : List DocSpec) ∧
        dB ∈ ([⟨"a", some "blog", FName.index, ".html"⟩,
               ⟨"b", some "blog", FName.index, ".html"⟩] : List DocSpec) ∧
        dA.id ≠ dB.id ∧
        docRoute [("blog", ["blog"])] dA = some route ∧
        docRoute [("blog", ["blog"])] dB = some route ∧
        dA.id ∈ ids ∧ dB.id ∈ ids ∧ rstr = String.intercalate "/" route)) :=
  ⟨Or.inr (by decide),
    buildRoutes_duplicate [("blog", ["blog"])]
      [⟨"a", some "blog", FName.index, ".html"⟩, ⟨"b", some "blog", FName.index, ".html"⟩]
      (Or.inr (by decide))⟩

theorem escIdentChar_ge2 (len i : Nat) (f fh : Bool) (c : Char)
    (hi : 2 ≤ i) (hlen : len ≠ 1) :
    (escIdentChar len i f c).1 = claimEscChar fh i c := by
  have h0 : i ≠ 0 := by omega
  have h1 : i ≠ 1 := by omega
  unfold escIdentChar claimEscChar
  by_cases hnul : c.toNat = 0
  · simp [hnul]
  by_cases hctl : 1 ≤ c.toNat ∧ c.toNat ≤ 0x1F
  · simp [hnul, hctl]
  by_cases hhy : c = '-'
  · simp [hnul, hctl, h0, h1, hlen, hhy]
  · simp [hnul, hctl, h0, h1, hlen, hhy]
    split <;> rfl

theorem escIdentChar_zero (len : Nat) (fh : Bool) (c : Char)
    (h : ¬(c = '-' ∧ len = 1)) :
    (escIdentChar len 0 false c).1 = claimEscChar fh 0 c := by
  unfold escIdentChar claimEscChar
  by_cases hnul : c.toNat = 0
  · simp [hnul]
  by_cases hctl : (1 ≤ c.toNat ∧ c.toNat ≤ 0x1F) ∨ isDigitChar c
  · simp [hnul, hctl]
  by_cases hhy : c = '-'
  · have hlen : ¬ len = 1 := fun hl => h ⟨hhy, hl⟩
    simp [hnul, hctl, hhy, hlen]
    split <;> rfl
  · simp [hnul, hctl, hhy]
    split <;> rfl

theorem escIdentChar_one (len : Nat) (fh : Bool) (c : Char) (hlen : len ≠ 1) :
    (escIdentChar len 1 fh c).1 = claimEscChar fh 1 c := by
  unfold escIdentChar claimEscChar
  by_cases hnul : c.toNat = 0
  · simp [hnul]
  by_cases hctl : (1 ≤ c.toNat ∧ c.toNat ≤ 0x1F) ∨ (isDigitChar c ∧ fh = true)
  · simp [hnul, hctl]
  by_cases hhy : c = '-'
  · simp [hnul, hctl, hhy, hlen]
    split <;> rfl
  · simp [hnul, hctl, hhy]
    split <;> rfl

theorem escIdentChar_snd_zero (len : Nat) (c : Char) (hlen : len ≠ 1) :
    (escIdentChar len 0 false c).2 = decide (c = '-') := by
  by_cases hhy : c = '-'
  · subst hhy
    simp [escIdentChar, hlen, isDigitChar]
  · simp [escIdentChar, apply_ite Prod.snd, hhy]

theorem escIdentLoop_tail (len : Nat) (hlen : len ≠ 1) (fh : Bool) :
    ∀ (l : List Char) (i : Nat) (f : Bool), 2 ≤ i →
      escIdentLoop len i f l
        = ((List.enumFrom i l).map (fun p => claimEscChar fh p.1 p.2)).flatten := by
  intro l
  induction l with
  | nil => intro i f hi; rfl
  | cons c rest ih =>
    intro i f hi
    rw [escIdentLoop]
    show (escIdentChar len i f c).1
        ++ escIdentLoop len (i + 1) (escIdentChar len i f c).2 rest = _
    rw [ih (i + 1) _ (by omega)]
    rw [escIdentChar_ge2 len i f fh c hi hlen]
    simp [List.enumFrom]

/-! ## C9: CSS identifier escaping -/

/-- C9: the CSS identifier escaper equals the spec's description for every
input string: NUL becomes U+FFFD; C0 controls, a leading digit, and a
second-position digit after a leading hyphen become a backslash, the hex code
and a space; the lone identifier `-` becomes `\-`; letters, digits, hyphen,
underscore and all characters at or above U+0080 pass through elsewhere; every
other character gains a single leading backslash. -/
theorem escapeIdentifier_eq_claim (s : String) :
    escapeIdentifier s = escapeIdentifierClaim s := by
  cases hs : s.data with
  | nil =>
    have hne : s ≠ "-" := by
      intro h
      rw [h] at hs
      exact absurd hs (by decide)
    unfold escapeIdentifier escapeIdentifierClaim
    rw [if_neg hne, hs]
    rfl
  | cons c0 rest0 =>
    cases rest0 with
    | nil =>
      by_cases hc0 : c0 = '-'
      · subst hc0
        have hs2 : s = "-" := by
          apply String.ext
          rw [hs]
        rw [hs2]
        decide
      · have hne : s ≠ "-" := by
          intro h
          rw [h] at hs
          have h2 : ('-' : Char) = c0 := by
            have hd : ("-" : String).data = ['-'] := rfl
            rw [hd] at hs
            injection hs
          exact hc0 h2.symm
        unfold escapeIdentifier escapeIdentifierClaim
        rw [if_neg hne, hs]
        show String.mk _ = String.mk _
        congr 1
        rw [escIdentLoop]
        show (escIdentChar (utf8Len [c0]) 0 false c0).1
            ++ escIdentLoop (utf8Len [c0]) 1 (escIdentChar (utf8Len [c0]) 0 false c0).2 [] = _
        rw [escIdentChar_zero (utf8Len [c0]) (decide ([c0].head? = some '-')) c0
          (fun hx => hc0 hx.1)]
        simp [escIdentLoop, List.enum, List.enumFrom]
    | cons c1 rest =>
      have hp0 : 0 < c0.utf8Size := Char.utf8Size_pos c0
      have hp1 : 0 < c1.utf8Size := Char.utf8Size_pos c1
      have hlen1 : utf8Len (c0 :: c1 :: rest) ≠ 1 := by
        simp only [utf8Len, List.map_cons, List.sum_cons]
        omega
      have hne : s ≠ "-" := by
        intro h
        rw [h] at hs
        have hd : ("-" : String).data = ['-'] := rfl
        rw [hd] at hs
        have h2 : ([] : List Char) = c1 :: rest := by injection hs with _ h2
        cases h2
      unfold escapeIdentifier escapeIdentifierClaim
      rw [if_neg hne, hs]
      show String.mk _ = String.mk _
      congr 1
      have hfh : (decide ((c0 :: c1 :: rest).head? = some '-')) = decide (c0 = '-') := by
        simp
      rw [escIdentLoop]
      show (escIdentChar (utf8Len (c0 :: c1 :: rest)) 0 false c0).1
          ++ escIdentLoop (utf8Len (c0 :: c1 :: rest)) 1
            (escIdentChar (utf8Len (c0 :: c1 :: rest)) 0 false c0).2 (c1 :: rest) = _
      rw [escIdentChar_snd_zero _ c0 hlen1]
      rw [escIdentLoop]
      show _ ++ ((escIdentChar _ 1 (decide (c0 = '-')) c1).1
          ++ escIdentLoop _ 2 (escIdentChar _ 1 (decide (c0 = '-')) c1).2 rest) = _
      rw [escIdentChar_zero (utf8Len (c0 :: c1 :: rest)) (decide (c0 = '-')) c0
        (fun hx => hlen1 hx.2)]
      rw [escIdentChar_one (utf8Len (c0 :: c1 :: rest)) (decide (c0 = '-')) c1 hlen1]
      rw [escIdentLoop_tail (utf8Len (c0 :: c1 :: rest)) hlen1 (decide (c0 = '-')) rest 2 _
        (by omega)]
      rw [hfh]
      simp [List.enum, List.enumFrom]
